import Mathlib

/-!
Shallow embedding of the chain-subscriber subsystem (`chain/subscriber.go`).

The transaction handle (`ChainUpdateTx`) is modelled as an oracle `Tx` that
decides, per operation, whether the call succeeds; every performed call is
recorded in a trace (`List TxOp`).  The functions `updateContract`,
`applyChainUpdates`, `revertChainUpdate` and `processUpdates` mirror the Go
control flow (early return on the first failing call), and the retry loop of
`sync` is embedded as `syncRetry` over an oracle giving the outcome of each
attempt of `processUpdates`.
-/

namespace RenterdChain

/-- `api.ContractState`: contract lifecycle states used by the subscriber. -/
inductive ContractState where
  | unknown
  | pending
  | active
  | complete
  | failed
deriving DecidableEq

/-- `types.ChainIndex`: a position on the chain, `(height, block id)`.
The 32-byte block hash is modelled as a `Nat`. -/
structure ChainIndex where
  height : Nat
  id : Nat
deriving DecidableEq

/-- The internal `revision` struct of the subscriber. -/
structure Revision where
  revisionNumber : Nat
  fileSize : Nat
deriving DecidableEq

/-- `types.MaxRevisionNumber` (`math.MaxUint64`). -/
def maxRevisionNumber : Nat := 2 ^ 64 - 1

/-- The four v2 resolution variants of `types.V2FileContractResolutionType`;
`Option V2Resolution` models the nilable interface value. -/
inductive V2Resolution where
  | finalization
  | renewal
  | storageProof
  | expiration
deriving DecidableEq

/-- One call on the `ChainUpdateTx` handle (file-contract IDs and host keys
are modelled as `Nat`, durations and timestamps as `Int`). -/
inductive TxOp where
  | contractState (fcid : Nat)
  | updateContract (fcid height revisionNumber size : Nat)
  | updateContractState (fcid : Nat) (st : ContractState)
  | updateContractProofHeight (fcid height : Nat)
  | updateChainIndex (index : ChainIndex)
  | updateFailedContracts (height : Nat)
  | updateHost (hk : Nat) (netAddress : String) (height blockId : Nat) (ts : Int)
  | walletRevert (index : ChainIndex)
  | walletApply
  | commit
deriving DecidableEq

/-- The transaction oracle: which calls succeed, and the contract state
returned by a successful `ContractState` read. -/
structure Tx where
  opOk : TxOp → Bool
  stateOf : Nat → ContractState

/-- Run a list of fallible calls in order, stopping at the first failure;
returns the trace of calls performed and the error, if any. -/
def seqOps (tx : Tx) : List TxOp → List TxOp × Option String
  | [] => ([], none)
  | op :: rest =>
    if tx.opOk op then
      (op :: (seqOps tx rest).1, (seqOps tx rest).2)
    else ([op], some "operation failed")

/-- Sequence two traced computations the way the Go code sequences statements
with an early `return err`. -/
def andThen (x y : List TxOp × Option String) : List TxOp × Option String :=
  if x.2.isNone then (x.1 ++ y.1, y.2) else x

/-- Run a traced computation for each element of a list, stopping at the
first error (the shape of the `ForEach...` callbacks guarded by
`if err != nil return`). -/
def runSeq (f : α → List TxOp × Option String) : List α → List TxOp × Option String
  | [] => ([], none)
  | a :: rest =>
    if (f a).2.isNone then ((f a).1 ++ (runSeq f rest).1, (runSeq f rest).2)
    else f a

/-- `checkFileContract` from `chain/subscriber.go`: classify a v2 resolution
into `(resolved, valid)`.  The element argument is projected to the fields
the function reads (`Filesize`). -/
def checkFileContract (fce : Revision) (res : Option V2Resolution) : Bool × Bool :=
  match res with
  | none => (false, false)
  | some V2Resolution.finalization => (true, true)
  | some V2Resolution.renewal => (true, true)
  | some V2Resolution.storageProof => (true, true)
  | some V2Resolution.expiration => (true, fce.fileSize == 0)

/-- The calls issued on the revert path of `updateContract`
(`prev != nil`), given the state read at the start of the call. -/
def revertOps (fcid : Nat) (index : ChainIndex) (st : ContractState)
    (p : Revision) (curr : Option Revision) (resolved : Bool) : List TxOp :=
  (if curr.isNone then [TxOp.updateContractState fcid ContractState.pending] else []) ++
  (match curr with
   | some _ =>
     TxOp.updateContract fcid index.height p.revisionNumber p.fileSize ::
       (if st = ContractState.complete
        then [TxOp.updateContractState fcid ContractState.active] else [])
   | none => []) ++
  (if resolved then [TxOp.updateContractState fcid ContractState.active] else [])

/-- The calls issued on the apply path of `updateContract`
(`prev == nil`, `curr != nil`). -/
def applyOps (fcid : Nat) (index : ChainIndex) (st : ContractState)
    (c : Revision) (resolved valid : Bool) : List TxOp :=
  TxOp.updateContract fcid index.height c.revisionNumber c.fileSize ::
  ((if st = ContractState.pending ∨ st = ContractState.unknown
    then [TxOp.updateContractState fcid ContractState.active] else []) ++
   (if c.revisionNumber = maxRevisionNumber ∧ c.fileSize = 0
    then [TxOp.updateContractState fcid ContractState.complete] else []) ++
   (if resolved
    then [TxOp.updateContractProofHeight fcid index.height,
          TxOp.updateContractState fcid
            (if valid then ContractState.complete else ContractState.failed)]
    else []))

/-- `Subscriber.updateContract`: the contract-state deriver.  `known` models
the `knownContracts` set at the moment `isKnownContract` consults it. -/
def updateContract (known : List Nat) (tx : Tx) (index : ChainIndex) (fcid : Nat)
    (prev curr : Option Revision) (resolved valid : Bool) :
    List TxOp × Option String :=
  if prev.isNone && curr.isNone then
    ([], some "both prev and curr revisions are nil")
  else if known.contains fcid = false then
    ([], none)
  else if tx.opOk (TxOp.contractState fcid) = false then
    ([TxOp.contractState fcid], some "failed to get contract state")
  else
    let st := tx.stateOf fcid
    match prev, curr with
    | some p, _ =>
      (TxOp.contractState fcid :: (seqOps tx (revertOps fcid index st p curr resolved)).1,
       (seqOps tx (revertOps fcid index st p curr resolved)).2)
    | none, some c =>
      (TxOp.contractState fcid :: (seqOps tx (applyOps fcid index st c resolved valid)).1,
       (seqOps tx (applyOps fcid index st c resolved valid)).2)
    | none, none => ([], some "both prev and curr revisions are nil")

/-- A host announcement found in a block (fields the subscriber reads). -/
structure HostAnn where
  hk : Nat
  netAddress : String
deriving DecidableEq

/-- The fields of a block the subscriber reads: its ID, timestamp, and the
host announcements `chain.ForEachHostAnnouncement` yields. -/
structure Block where
  id : Nat
  timestamp : Int
  announcements : List HostAnn
deriving DecidableEq

/-- One item yielded by `ForEachFileContractElement` for v1 contracts:
the element (projected to its ID and revision fields), the optional
revision element, and the `(resolved, valid)` flags. -/
structure V1Elem where
  fcid : Nat
  fce : Revision
  rev : Option Revision
  resolved : Bool
  valid : Bool
deriving DecidableEq

/-- One item yielded by `ForEachV2FileContractElement`: the element, the
optional revision element, and the optional resolution. -/
structure V2Elem where
  fcid : Nat
  fce : Revision
  rev : Option Revision
  res : Option V2Resolution
deriving DecidableEq

/-- `chain.ApplyUpdate` projected to what the subscriber consumes. -/
structure ApplyUpdate where
  index : ChainIndex
  block : Block
  v1 : List V1Elem
  v2 : List V2Elem
deriving DecidableEq

/-- `chain.RevertUpdate` projected to what the subscriber consumes. -/
structure RevertUpdate where
  index : ChainIndex
  v1 : List V1Elem
  v2 : List V2Elem
deriving DecidableEq

/-- The `UpdateHost` calls a block's announcements give rise to: one per
announcement with a non-empty net address. -/
def hostOps (cau : ApplyUpdate) : List TxOp :=
  (cau.block.announcements.filter (fun a => a.netAddress ≠ "")).map
    (fun a => TxOp.updateHost a.hk a.netAddress cau.index.height cau.block.id
      cau.block.timestamp)

/-- The v1 body of the apply walker: project `curr` from the revision element
when present, else from the element, and call the deriver with `prev = nil`. -/
def applyV1 (known : List Nat) (tx : Tx) (index : ChainIndex) (e : V1Elem) :
    List TxOp × Option String :=
  let curr := match e.rev with
    | some r => r
    | none => e.fce
  updateContract known tx index e.fcid none (some curr) e.resolved e.valid

/-- The v2 body of the apply walker: as `applyV1`, with `(resolved, valid)`
computed by `checkFileContract` on the element and its resolution. -/
def applyV2 (known : List Nat) (tx : Tx) (index : ChainIndex) (e : V2Elem) :
    List TxOp × Option String :=
  let curr := match e.rev with
    | some r => r
    | none => e.fce
  let rv := checkFileContract e.fce e.res
  updateContract known tx index e.fcid none (some curr) rv.1 rv.2

/-- The v1 body of the revert walker: `prev` from the element, `curr` from
the revision element when present. -/
def revertV1 (known : List Nat) (tx : Tx) (index : ChainIndex) (e : V1Elem) :
    List TxOp × Option String :=
  updateContract known tx index e.fcid (some e.fce) e.rev e.resolved e.valid

/-- The v2 body of the revert walker. -/
def revertV2 (known : List Nat) (tx : Tx) (index : ChainIndex) (e : V2Elem) :
    List TxOp × Option String :=
  let rv := checkFileContract e.fce e.res
  updateContract known tx index e.fcid (some e.fce) e.rev rv.1 rv.2

/-- The body of the loop of `Subscriber.applyChainUpdates` for one apply
update.  `now - cau.block.timestamp > maxAge` models
`time.Since(b.Timestamp) > s.announcementMaxAge`; as in the source, the
`continue` it guards skips the whole iteration: announcements and both
contract walks. -/
def applyBlock (known : List Nat) (maxAge now : Int) (tx : Tx)
    (cau : ApplyUpdate) : List TxOp × Option String :=
  if maxAge < now - cau.block.timestamp then ([], none)
  else
    andThen (seqOps tx (hostOps cau))
      (andThen (runSeq (applyV1 known tx cau.index) cau.v1)
        (runSeq (applyV2 known tx cau.index) cau.v2))

/-- `Subscriber.applyChainUpdates`. -/
def applyChainUpdates (known : List Nat) (maxAge now : Int) (tx : Tx)
    (caus : List ApplyUpdate) : List TxOp × Option String :=
  runSeq (applyBlock known maxAge now tx) caus

/-- `Subscriber.revertChainUpdate` for a single revert update. -/
def revertChainUpdate (known : List Nat) (tx : Tx) (cru : RevertUpdate) :
    List TxOp × Option String :=
  andThen (runSeq (revertV1 known tx cru.index) cru.v1)
    (runSeq (revertV2 known tx cru.index) cru.v2)

/-- The revert half of `Subscriber.processUpdates`: each revert update is
walked and then handed to `wallet.RevertChainUpdate` (one traced call),
tracking the running index. -/
def processReverts (known : List Nat) (tx : Tx) (idx : ChainIndex) :
    List RevertUpdate → List TxOp × Except String ChainIndex
  | [] => ([], Except.ok idx)
  | cru :: rest =>
    match (revertChainUpdate known tx cru).2 with
    | some m => ((revertChainUpdate known tx cru).1, Except.error m)
    | none =>
      if tx.opOk (TxOp.walletRevert cru.index) then
        ((revertChainUpdate known tx cru).1 ++
           TxOp.walletRevert cru.index :: (processReverts known tx cru.index rest).1,
         (processReverts known tx cru.index rest).2)
      else ((revertChainUpdate known tx cru).1 ++ [TxOp.walletRevert cru.index],
            Except.error "failed to revert wallet update")

/-- The index handed to `UpdateChainIndex`: the index of the last apply
update when the apply batch is non-empty, else the index reached by the
revert loop. -/
def batchIndex (idx0 : ChainIndex) (caus : List ApplyUpdate) : ChainIndex :=
  match caus.getLast? with
  | some c => c.index
  | none => idx0

/-- `Subscriber.processUpdates`: reverts, then applies, then the wallet-apply
helper, `UpdateChainIndex`, `UpdateFailedContracts`, and `Commit`; on
success, returns the index written by `UpdateChainIndex`. -/
def processUpdates (known : List Nat) (maxAge now : Int) (tx : Tx)
    (crus : List RevertUpdate) (caus : List ApplyUpdate) :
    List TxOp × Except String ChainIndex :=
  match (processReverts known tx ⟨0, 0⟩ crus).2 with
  | Except.error m => ((processReverts known tx ⟨0, 0⟩ crus).1, Except.error m)
  | Except.ok idx0 =>
    match (applyChainUpdates known maxAge now tx caus).2 with
    | some m =>
      ((processReverts known tx ⟨0, 0⟩ crus).1 ++
         (applyChainUpdates known maxAge now tx caus).1, Except.error m)
    | none =>
      if tx.opOk TxOp.walletApply then
        if tx.opOk (TxOp.updateChainIndex (batchIndex idx0 caus)) then
          if tx.opOk (TxOp.updateFailedContracts (batchIndex idx0 caus).height) then
            if tx.opOk TxOp.commit then
              ((processReverts known tx ⟨0, 0⟩ crus).1 ++
                 (applyChainUpdates known maxAge now tx caus).1 ++
                 [TxOp.walletApply, TxOp.updateChainIndex (batchIndex idx0 caus),
                  TxOp.updateFailedContracts (batchIndex idx0 caus).height, TxOp.commit],
               Except.ok (batchIndex idx0 caus))
            else
              ((processReverts known tx ⟨0, 0⟩ crus).1 ++
                 (applyChainUpdates known maxAge now tx caus).1 ++
                 [TxOp.walletApply, TxOp.updateChainIndex (batchIndex idx0 caus),
                  TxOp.updateFailedContracts (batchIndex idx0 caus).height, TxOp.commit],
               Except.error "failed to commit chain update")
          else
            ((processReverts known tx ⟨0, 0⟩ crus).1 ++
               (applyChainUpdates known maxAge now tx caus).1 ++
               [TxOp.walletApply, TxOp.updateChainIndex (batchIndex idx0 caus),
                TxOp.updateFailedContracts (batchIndex idx0 caus).height],
             Except.error "failed to update failed contracts")
        else
          ((processReverts known tx ⟨0, 0⟩ crus).1 ++
             (applyChainUpdates known maxAge now tx caus).1 ++
             [TxOp.walletApply, TxOp.updateChainIndex (batchIndex idx0 caus)],
           Except.error "failed to update chain index")
      else
        ((processReverts known tx ⟨0, 0⟩ crus).1 ++
           (applyChainUpdates known maxAge now tx caus).1 ++ [TxOp.walletApply],
         Except.error "failed to apply wallet updates")

/-- Outcome of the retry loop of `Subscriber.sync` for one batch: how many
attempts of `processUpdates` were made, the sleeps performed between
attempts (in order), and the final outcome. -/
structure RetryResult where
  attemptsMade : Nat
  sleeps : List Nat
  outcome : Except String ChainIndex

/-- The retry loop of `sync`, at attempt number `i` with the still-unused
retry intervals `remaining`; `f i` is the outcome of the `i`-th call to
`processUpdates`. -/
def retryGo (f : Nat → Except String ChainIndex) :
    Nat → List Nat → RetryResult
  | i, remaining =>
    match f i with
    | Except.ok idx => ⟨i, [], Except.ok idx⟩
    | Except.error e =>
      match remaining with
      | [] => ⟨i, [], Except.error e⟩
      | d :: rest =>
        ⟨(retryGo f (i + 1) rest).attemptsMade,
         d :: (retryGo f (i + 1) rest).sleeps,
         (retryGo f (i + 1) rest).outcome⟩

/-- The retry loop of `Subscriber.sync` over one fetched batch: attempts
start at 1 with the full `retryTxIntervals` list unused. -/
def syncRetry (intervals : List Nat) (f : Nat → Except String ChainIndex) :
    RetryResult :=
  retryGo f 1 intervals

/-- Calls that the revert/apply walking phase may issue (everything except
the tail of `processUpdates`: the wallet-apply helper, `UpdateChainIndex`,
`UpdateFailedContracts` and `Commit`). -/
def isPreOp : TxOp → Bool
  | TxOp.updateChainIndex _ => false
  | TxOp.updateFailedContracts _ => false
  | TxOp.walletApply => false
  | TxOp.commit => false
  | _ => true

/-- Recognise an `UpdateChainIndex` call. -/
def isUCIop : TxOp → Bool
  | TxOp.updateChainIndex _ => true
  | _ => false

/-- Recognise an `UpdateContractState` write. -/
def isStateWriteOp : TxOp → Bool
  | TxOp.updateContractState _ _ => true
  | _ => false

/-- A transaction oracle on which every call succeeds; reads return
`Unknown` (the state of an ID not yet seen). -/
def txAllOk : Tx := ⟨fun _ => true, fun _ => ContractState.unknown⟩

/-- A transaction oracle on which exactly the wallet-apply helper fails. -/
def txFailWalletApply : Tx :=
  ⟨fun op => if op = TxOp.walletApply then false else true,
   fun _ => ContractState.unknown⟩

/-- An apply update whose block timestamp (0) is far older than
`announcementMaxAge` relative to `now = 1000`, carrying one announcement and
one v1 file-contract element for contract 42. -/
def oldBlockUpdate : ApplyUpdate :=
  ⟨⟨3, 3⟩, ⟨9, 0, [⟨1, "addr"⟩]⟩, [⟨42, ⟨1, 100⟩, none, false, false⟩], []⟩

/-- Attempt outcomes where the second call to `processUpdates` succeeds. -/
def attemptsOkAt2 : Nat → Except String ChainIndex :=
  fun i => if i = 2 then Except.ok ⟨1, 1⟩ else Except.error "tx failed"

theorem seqOps_allOk (tx : Tx) (ops : List TxOp)
    (h : ∀ op ∈ ops, tx.opOk op = true) : seqOps tx ops = (ops, none) := by
  induction ops with
  | nil => rfl
  | cons o rest ih =>
    have ho : tx.opOk o = true := h o (by simp)
    have hr := ih (fun op hop => h op (by simp [hop]))
    simp [seqOps, ho, hr]

theorem seqOps_sub (tx : Tx) (ops : List TxOp) :
    ∀ op ∈ (seqOps tx ops).1, op ∈ ops := by
  induction ops with
  | nil => intro op hop; simp [seqOps] at hop
  | cons o rest ih =>
    intro op hop
    by_cases ho : tx.opOk o = true
    · simp [seqOps, ho] at hop
      rcases hop with h | h
      · simp [h]
      · exact List.mem_cons_of_mem _ (ih op h)
    · simp [seqOps, ho] at hop
      simp [hop]

theorem seqOps_none (tx : Tx) (ops : List TxOp)
    (h : (seqOps tx ops).2 = none) :
    (seqOps tx ops).1 = ops ∧ ∀ op ∈ ops, tx.opOk op = true := by
  induction ops with
  | nil => simp [seqOps]
  | cons o rest ih =>
    by_cases ho : tx.opOk o = true
    · simp only [seqOps, ho, if_true] at h ⊢
      rcases ih h with ⟨h1, h2⟩
      refine ⟨by simp [h1], ?_⟩
      intro op hop
      rcases List.mem_cons.mp hop with h3 | h3
      · simp [h3, ho]
      · exact h2 op h3
    · simp [seqOps, ho] at h

theorem runSeq_sub (f : α → List TxOp × Option String) (l : List α) :
    ∀ op ∈ (runSeq f l).1, ∃ a ∈ l, op ∈ (f a).1 := by
  induction l with
  | nil => intro op hop; simp [runSeq] at hop
  | cons a rest ih =>
    intro op hop
    by_cases ha : (f a).2.isNone
    · simp only [runSeq, ha, if_true] at hop
      rcases List.mem_append.mp hop with h | h
      · exact ⟨a, by simp, h⟩
      · rcases ih op h with ⟨b, hb, h2⟩
        exact ⟨b, by simp [hb], h2⟩
    · simp only [runSeq, ha, if_false] at hop
      exact ⟨a, by simp, hop⟩

theorem runSeq_none (f : α → List TxOp × Option String) (l : List α)
    (h : (runSeq f l).2 = none) :
    ∀ op ∈ (runSeq f l).1, ∃ a ∈ l, (f a).2 = none ∧ op ∈ (f a).1 := by
  induction l with
  | nil => intro op hop; simp [runSeq] at hop
  | cons a rest ih =>
    intro op hop
    by_cases ha : (f a).2.isNone
    · simp only [runSeq, ha, if_true] at h hop
      rcases List.mem_append.mp hop with h1 | h1
      · exact ⟨a, by simp, Option.isNone_iff_eq_none.mp ha, h1⟩
      · rcases ih h op h1 with ⟨b, hb, h2, h3⟩
        exact ⟨b, by simp [hb], h2, h3⟩
    · simp [runSeq, ha] at h
      simp [h] at ha

theorem andThen_sub (x y : List TxOp × Option String) :
    ∀ op ∈ (andThen x y).1, op ∈ x.1 ∨ op ∈ y.1 := by
  intro op hop
  unfold andThen at hop
  by_cases hx : x.2.isNone
  · simp only [hx, if_true] at hop
    exact List.mem_append.mp hop
  · simp only [hx, if_false] at hop
    exact Or.inl hop

theorem andThen_none (x y : List TxOp × Option String)
    (h : (andThen x y).2 = none) :
    x.2 = none ∧ y.2 = none ∧ (andThen x y).1 = x.1 ++ y.1 := by
  by_cases hx : x.2.isNone
  · refine ⟨Option.isNone_iff_eq_none.mp hx, ?_, ?_⟩
    · simpa [andThen, hx] using h
    · simp [andThen, hx]
  · simp [andThen, hx] at h
    simp [h] at hx

theorem mem_ite_list {c : Prop} [Decidable c] {l1 l2 : List TxOp} {op : TxOp}
    (h : op ∈ (if c then l1 else l2)) : op ∈ l1 ∨ op ∈ l2 := by
  split at h
  · exact Or.inl h
  · exact Or.inr h

theorem revertOps_pre (fcid : Nat) (index : ChainIndex) (st : ContractState)
    (p : Revision) (curr : Option Revision) (resolved : Bool) :
    ∀ op ∈ revertOps fcid index st p curr resolved, isPreOp op = true := by
  intro op hop
  unfold revertOps at hop
  rcases List.mem_append.mp hop with h | h
  · rcases List.mem_append.mp h with h | h
    · rcases mem_ite_list h with h | h
      · simp at h; subst h; rfl
      · simp at h
    · rcases curr with _ | c
      · simp at h
      · rcases List.mem_cons.mp h with h | h
        · subst h; rfl
        · rcases mem_ite_list h with h | h
          · simp at h; subst h; rfl
          · simp at h
  · rcases mem_ite_list h with h | h
    · simp at h; subst h; rfl
    · simp at h

theorem applyOps_pre (fcid : Nat) (index : ChainIndex) (st : ContractState)
    (c : Revision) (resolved valid : Bool) :
    ∀ op ∈ applyOps fcid index st c resolved valid, isPreOp op = true := by
  intro op hop
  unfold applyOps at hop
  rcases List.mem_cons.mp hop with h | h
  · subst h; rfl
  · rcases List.mem_append.mp h with h | h
    · rcases List.mem_append.mp h with h | h
      · rcases mem_ite_list h with h | h
        · simp at h; subst h; rfl
        · simp at h
      · rcases mem_ite_list h with h | h
        · simp at h; subst h; rfl
        · simp at h
    · rcases mem_ite_list h with h | h
      · simp at h
        rcases h with h | h <;> subst h <;> rfl
      · simp at h

theorem updateContract_pre (known : List Nat) (tx : Tx) (index : ChainIndex)
    (fcid : Nat) (prev curr : Option Revision) (resolved valid : Bool) :
    ∀ op ∈ (updateContract known tx index fcid prev curr resolved valid).1,
      isPreOp op = true := by
  intro op hop
  by_cases hk : fcid ∈ known
  · rcases hs : tx.opOk (TxOp.contractState fcid)
    · rcases prev with _ | p <;> rcases curr with _ | c <;>
        simp [updateContract, hk, hs] at hop <;>
        (subst hop; rfl)
    · rcases prev with _ | p <;> rcases curr with _ | c
      · simp [updateContract] at hop
      · simp [updateContract, hk, hs] at hop
        rcases hop with h | h
        · subst h; rfl
        · exact applyOps_pre fcid index (tx.stateOf fcid) c resolved valid op
            (seqOps_sub tx _ op h)
      · simp [updateContract, hk, hs] at hop
        rcases hop with h | h
        · subst h; rfl
        · exact revertOps_pre fcid index (tx.stateOf fcid) p none resolved op
            (seqOps_sub tx _ op h)
      · simp [updateContract, hk, hs] at hop
        rcases hop with h | h
        · subst h; rfl
        · exact revertOps_pre fcid index (tx.stateOf fcid) p (some c) resolved op
            (seqOps_sub tx _ op h)
  · rcases prev with _ | p <;> rcases curr with _ | c <;>
      simp [updateContract, hk] at hop

theorem updateContract_okOps (known : List Nat) (tx : Tx) (index : ChainIndex)
    (fcid : Nat) (prev curr : Option Revision) (resolved valid : Bool)
    (h : (updateContract known tx index fcid prev curr resolved valid).2 = none) :
    ∀ op ∈ (updateContract known tx index fcid prev curr resolved valid).1,
      tx.opOk op = true := by
  intro op hop
  by_cases hk : fcid ∈ known
  · rcases hs : tx.opOk (TxOp.contractState fcid)
    · rcases prev with _ | p <;> rcases curr with _ | c <;>
        simp [updateContract, hk, hs] at h hop
    · rcases prev with _ | p <;> rcases curr with _ | c
      · simp [updateContract] at hop
      · simp [updateContract, hk, hs] at h hop
        rcases hop with h1 | h1
        · simp [h1, hs]
        · exact (seqOps_none tx _ h).2 op (seqOps_sub tx _ op h1)
      · simp [updateContract, hk, hs] at h hop
        rcases hop with h1 | h1
        · simp [h1, hs]
        · exact (seqOps_none tx _ h).2 op (seqOps_sub tx _ op h1)
      · simp [updateContract, hk, hs] at h hop
        rcases hop with h1 | h1
        · simp [h1, hs]
        · exact (seqOps_none tx _ h).2 op (seqOps_sub tx _ op h1)
  · rcases prev with _ | p <;> rcases curr with _ | c <;>
      simp [updateContract, hk] at hop

theorem hostOps_pre (cau : ApplyUpdate) :
    ∀ op ∈ hostOps cau, isPreOp op = true := by
  intro op hop
  unfold hostOps at hop
  rcases List.mem_map.mp hop with ⟨a, _, ha⟩
  rw [← ha]
  rfl

theorem applyBlock_pre (known : List Nat) (maxAge now : Int) (tx : Tx)
    (cau : ApplyUpdate) :
    ∀ op ∈ (applyBlock known maxAge now tx cau).1, isPreOp op = true := by
  intro op hop
  unfold applyBlock at hop
  split at hop
  · simp at hop
  · rcases andThen_sub _ _ op hop with h | h
    · exact hostOps_pre cau op (seqOps_sub tx _ op h)
    · rcases andThen_sub _ _ op h with h1 | h1
      · rcases runSeq_sub _ _ op h1 with ⟨e, _, h2⟩
        exact updateContract_pre known tx cau.index e.fcid none _ e.resolved e.valid op h2
      · rcases runSeq_sub _ _ op h1 with ⟨e, _, h2⟩
        exact updateContract_pre known tx cau.index e.fcid none _ _ _ op h2

theorem applyBlock_okOps (known : List Nat) (maxAge now : Int) (tx : Tx)
    (cau : ApplyUpdate) (h : (applyBlock known maxAge now tx cau).2 = none) :
    ∀ op ∈ (applyBlock known maxAge now tx cau).1, tx.opOk op = true := by
  intro op hop
  unfold applyBlock at h hop
  by_cases hold : maxAge < now - cau.block.timestamp
  · rw [if_pos hold] at hop
    simp at hop
  · rw [if_neg hold] at h hop
    rcases andThen_none _ _ h with ⟨h1, h2, h3⟩
    rw [h3] at hop
    rcases List.mem_append.mp hop with h4 | h4
    · exact (seqOps_none tx _ h1).2 op (seqOps_sub tx _ op h4)
    · rcases andThen_none _ _ h2 with ⟨h5, h6, h7⟩
      rw [h7] at h4
      rcases List.mem_append.mp h4 with h8 | h8
      · rcases runSeq_none _ _ h5 op h8 with ⟨e, _, h9, h10⟩
        exact updateContract_okOps known tx cau.index e.fcid none _ e.resolved e.valid h9 op h10
      · rcases runSeq_none _ _ h6 op h8 with ⟨e, _, h9, h10⟩
        exact updateContract_okOps known tx cau.index e.fcid none _ _ _ h9 op h10

theorem applyChainUpdates_pre (known : List Nat) (maxAge now : Int) (tx : Tx)
    (caus : List ApplyUpdate) :
    ∀ op ∈ (applyChainUpdates known maxAge now tx caus).1, isPreOp op = true := by
  intro op hop
  rcases runSeq_sub _ _ op hop with ⟨cau, _, h⟩
  exact applyBlock_pre known maxAge now tx cau op h

theorem applyChainUpdates_okOps (known : List Nat) (maxAge now : Int) (tx : Tx)
    (caus : List ApplyUpdate)
    (h : (applyChainUpdates known maxAge now tx caus).2 = none) :
    ∀ op ∈ (applyChainUpdates known maxAge now tx caus).1, tx.opOk op = true := by
  intro op hop
  rcases runSeq_none _ _ h op hop with ⟨cau, _, h1, h2⟩
  exact applyBlock_okOps known maxAge now tx cau h1 op h2

theorem revertChainUpdate_pre (known : List Nat) (tx : Tx) (cru : RevertUpdate) :
    ∀ op ∈ (revertChainUpdate known tx cru).1, isPreOp op = true := by
  intro op hop
  unfold revertChainUpdate at hop
  rcases andThen_sub _ _ op hop with h | h
  · rcases runSeq_sub _ _ op h with ⟨e, _, h2⟩
    exact updateContract_pre known tx cru.index e.fcid (some e.fce) e.rev e.resolved e.valid op h2
  · rcases runSeq_sub _ _ op h with ⟨e, _, h2⟩
    simp only [revertV2] at h2
    exact updateContract_pre known tx cru.index e.fcid (some e.fce) e.rev _ _ op h2

theorem revertChainUpdate_okOps (known : List Nat) (tx : Tx) (cru : RevertUpdate)
    (h : (revertChainUpdate known tx cru).2 = none) :
    ∀ op ∈ (revertChainUpdate known tx cru).1, tx.opOk op = true := by
  intro op hop
  unfold revertChainUpdate at h hop
  rcases andThen_none _ _ h with ⟨h1, h2, h3⟩
  rw [h3] at hop
  rcases List.mem_append.mp hop with h4 | h4
  · rcases runSeq_none _ _ h1 op h4 with ⟨e, _, h5, h6⟩
    exact updateContract_okOps known tx cru.index e.fcid (some e.fce) e.rev e.resolved e.valid h5 op h6
  · rcases runSeq_none _ _ h2 op h4 with ⟨e, _, h5, h6⟩
    simp only [revertV2] at h5 h6
    exact updateContract_okOps known tx cru.index e.fcid (some e.fce) e.rev _ _ h5 op h6

theorem processReverts_pre (known : List Nat) (tx : Tx) (crus : List RevertUpdate) :
    ∀ idx, ∀ op ∈ (processReverts known tx idx crus).1, isPreOp op = true := by
  induction crus with
  | nil => intro idx op hop; simp [processReverts] at hop
  | cons cru rest ih =>
    intro idx op hop
    rcases hrv : (revertChainUpdate known tx cru).2 with _ | m
    · by_cases hw : tx.opOk (TxOp.walletRevert cru.index) = true
      · simp only [processReverts, hrv, hw, if_true] at hop
        rcases List.mem_append.mp hop with h | h
        · exact revertChainUpdate_pre known tx cru op h
        · rcases List.mem_cons.mp h with h1 | h1
          · subst h1; rfl
          · exact ih cru.index op h1
      · simp only [processReverts, hrv] at hop
        rw [if_neg hw] at hop
        rcases List.mem_append.mp hop with h | h
        · exact revertChainUpdate_pre known tx cru op h
        · simp at h; subst h; rfl
    · simp only [processReverts, hrv] at hop
      exact revertChainUpdate_pre known tx cru op hop

theorem processReverts_okOps (known : List Nat) (tx : Tx) (crus : List RevertUpdate) :
    ∀ idx j, (processReverts known tx idx crus).2 = Except.ok j →
      ∀ op ∈ (processReverts known tx idx crus).1, tx.opOk op = true := by
  induction crus with
  | nil => intro idx j _ op hop; simp [processReverts] at hop
  | cons cru rest ih =>
    intro idx j h op hop
    rcases hrv : (revertChainUpdate known tx cru).2 with _ | m
    · by_cases hw : tx.opOk (TxOp.walletRevert cru.index) = true
      · simp only [processReverts, hrv, hw, if_true] at h hop
        rcases List.mem_append.mp hop with h1 | h1
        · exact revertChainUpdate_okOps known tx cru hrv op h1
        · rcases List.mem_cons.mp h1 with h2 | h2
          · subst h2; exact hw
          · exact ih cru.index j h op h2
      · simp only [processReverts, hrv] at h
        rw [if_neg hw] at h
        simp at h
    · simp only [processReverts, hrv] at h
      simp at h

theorem processReverts_index (known : List Nat) (tx : Tx) (crus : List RevertUpdate) :
    ∀ idx j, (processReverts known tx idx crus).2 = Except.ok j →
      (crus = [] ∧ j = idx) ∨ (∃ r, crus.getLast? = some r ∧ j = r.index) := by
  induction crus with
  | nil =>
    intro idx j h
    simp [processReverts] at h
    exact Or.inl ⟨rfl, h.symm⟩
  | cons cru rest ih =>
    intro idx j h
    rcases hrv : (revertChainUpdate known tx cru).2 with _ | m
    · by_cases hw : tx.opOk (TxOp.walletRevert cru.index) = true
      · simp only [processReverts, hrv, hw, if_true] at h
        rcases ih cru.index j h with ⟨h1, h2⟩ | ⟨r, h1, h2⟩
        · subst h1
          exact Or.inr ⟨cru, rfl, h2⟩
        · refine Or.inr ⟨r, ?_, h2⟩
          rcases rest with _ | ⟨b, rest2⟩
          · simp at h1
          · rw [List.getLast?_cons_cons]
            exact h1
      · simp only [processReverts, hrv] at h
        rw [if_neg hw] at h
        simp at h
    · simp only [processReverts, hrv] at h
      simp at h

theorem processUpdates_ok_shape (known : List Nat) (maxAge now : Int) (tx : Tx)
    (crus : List RevertUpdate) (caus : List ApplyUpdate) (idx : ChainIndex)
    (h : (processUpdates known maxAge now tx crus caus).2 = Except.ok idx) :
    ∃ idx0, (processReverts known tx ⟨0, 0⟩ crus).2 = Except.ok idx0 ∧
      (applyChainUpdates known maxAge now tx caus).2 = none ∧
      idx = batchIndex idx0 caus ∧
      tx.opOk TxOp.walletApply = true ∧
      tx.opOk (TxOp.updateChainIndex idx) = true ∧
      tx.opOk (TxOp.updateFailedContracts idx.height) = true ∧
      tx.opOk TxOp.commit = true ∧
      (processUpdates known maxAge now tx crus caus).1 =
        (processReverts known tx ⟨0, 0⟩ crus).1 ++
          (applyChainUpdates known maxAge now tx caus).1 ++
          [TxOp.walletApply, TxOp.updateChainIndex idx,
           TxOp.updateFailedContracts idx.height, TxOp.commit] := by
  rcases hr : (processReverts known tx ⟨0, 0⟩ crus).2 with m | idx0
  · simp [processUpdates, hr] at h
  · rcases ha : (applyChainUpdates known maxAge now tx caus).2 with _ | m
    · by_cases hw : tx.opOk TxOp.walletApply = true
      · by_cases hu : tx.opOk (TxOp.updateChainIndex (batchIndex idx0 caus)) = true
        · by_cases hf : tx.opOk (TxOp.updateFailedContracts (batchIndex idx0 caus).height) = true
          · by_cases hc : tx.opOk TxOp.commit = true
            · have hmain : processUpdates known maxAge now tx crus caus =
                  ((processReverts known tx ⟨0, 0⟩ crus).1 ++
                     (applyChainUpdates known maxAge now tx caus).1 ++
                     [TxOp.walletApply, TxOp.updateChainIndex (batchIndex idx0 caus),
                      TxOp.updateFailedContracts (batchIndex idx0 caus).height,
                      TxOp.commit],
                   Except.ok (batchIndex idx0 caus)) := by
                simp only [processUpdates, hr, ha, hw, hu, hf, hc, if_true]
              rw [hmain] at h
              have hidx : batchIndex idx0 caus = idx := by
                injection h
              subst hidx
              exact ⟨idx0, rfl, rfl, rfl, hw, hu, hf, hc, by rw [hmain]⟩
            · simp only [processUpdates, hr, ha, hw, hu, hf, hc, if_true, if_false] at h
              simp at h
          · simp only [processUpdates, hr, ha, hw, hu, hf, if_true, if_false] at h
            simp at h
        · simp only [processUpdates, hr, ha, hw, hu, if_true, if_false] at h
          simp at h
      · simp only [processUpdates, hr, ha, hw, if_false] at h
        simp at h
    · simp [processUpdates, hr, ha] at h

theorem processUpdates_ok_allOk (known : List Nat) (maxAge now : Int) (tx : Tx)
    (crus : List RevertUpdate) (caus : List ApplyUpdate) (idx : ChainIndex)
    (h : (processUpdates known maxAge now tx crus caus).2 = Except.ok idx) :
    ∀ op ∈ (processUpdates known maxAge now tx crus caus).1, tx.opOk op = true := by
  rcases processUpdates_ok_shape known maxAge now tx crus caus idx h with
    ⟨idx0, hr, ha, _, hw, hu, hf, hc, htr⟩
  intro op hop
  rw [htr] at hop
  rcases List.mem_append.mp hop with h1 | h1
  · rcases List.mem_append.mp h1 with h2 | h2
    · exact processReverts_okOps known tx crus ⟨0, 0⟩ idx0 hr op h2
    · exact applyChainUpdates_okOps known maxAge now tx caus ha op h2
  · simp at h1
    rcases h1 with h2 | h2 | h2 | h2 <;> subst h2 <;> assumption

theorem processUpdates_commit_mem (known : List Nat) (maxAge now : Int) (tx : Tx)
    (crus : List RevertUpdate) (caus : List ApplyUpdate)
    (hcmem : TxOp.commit ∈ (processUpdates known maxAge now tx crus caus).1) :
    ∀ op ∈ (processUpdates known maxAge now tx crus caus).1,
      op ≠ TxOp.commit → tx.opOk op = true := by
  rcases hr : (processReverts known tx ⟨0, 0⟩ crus).2 with m | idx0
  · exfalso
    simp only [processUpdates, hr] at hcmem
    have := processReverts_pre known tx crus ⟨0, 0⟩ TxOp.commit hcmem
    simp [isPreOp] at this
  · rcases ha : (applyChainUpdates known maxAge now tx caus).2 with _ | m
    · by_cases hw : tx.opOk TxOp.walletApply = true
      · by_cases hu : tx.opOk (TxOp.updateChainIndex (batchIndex idx0 caus)) = true
        · by_cases hf : tx.opOk (TxOp.updateFailedContracts (batchIndex idx0 caus).height) = true
          · intro op hop hne
            have hop2 : op ∈
                (processReverts known tx ⟨0, 0⟩ crus).1 ++
                  (applyChainUpdates known maxAge now tx caus).1 ++
                  [TxOp.walletApply, TxOp.updateChainIndex (batchIndex idx0 caus),
                   TxOp.updateFailedContracts (batchIndex idx0 caus).height,
                   TxOp.commit] := by
              by_cases hc : tx.opOk TxOp.commit = true
              · simpa only [processUpdates, hr, ha, hw, hu, hf, hc, if_true] using hop
              · simpa only [processUpdates, hr, ha, hw, hu, hf, hc, if_true,
                  if_false] using hop
            rcases List.mem_append.mp hop2 with h1 | h1
            · rcases List.mem_append.mp h1 with h2 | h2
              · exact processReverts_okOps known tx crus ⟨0, 0⟩ idx0 hr op h2
              · exact applyChainUpdates_okOps known maxAge now tx caus ha op h2
            · simp at h1
              rcases h1 with h2 | h2 | h2 | h2
              · subst h2; exact hw
              · subst h2; exact hu
              · subst h2; exact hf
              · exact absurd h2 hne
          · exfalso
            simp only [processUpdates, hr, ha, hw, hu, hf, if_true, if_false] at hcmem
            rcases List.mem_append.mp hcmem with h1 | h1
            · rcases List.mem_append.mp h1 with h2 | h2
              · have := processReverts_pre known tx crus ⟨0, 0⟩ TxOp.commit h2
                simp [isPreOp] at this
              · have := applyChainUpdates_pre known maxAge now tx caus TxOp.commit h2
                simp [isPreOp] at this
            · simp at h1
        · exfalso
          simp only [processUpdates, hr, ha, hw, hu, if_true, if_false] at hcmem
          rcases List.mem_append.mp hcmem with h1 | h1
          · rcases List.mem_append.mp h1 with h2 | h2
            · have := processReverts_pre known tx crus ⟨0, 0⟩ TxOp.commit h2
              simp [isPreOp] at this
            · have := applyChainUpdates_pre known maxAge now tx caus TxOp.commit h2
              simp [isPreOp] at this
          · simp at h1
      · exfalso
        simp only [processUpdates, hr, ha, hw, if_false] at hcmem
        rcases List.mem_append.mp hcmem with h1 | h1
        · rcases List.mem_append.mp h1 with h2 | h2
          · have := processReverts_pre known tx crus ⟨0, 0⟩ TxOp.commit h2
            simp [isPreOp] at this
          · have := applyChainUpdates_pre known maxAge now tx caus TxOp.commit h2
            simp [isPreOp] at this
        · simp at h1
    · exfalso
      simp only [processUpdates, hr, ha] at hcmem
      rcases List.mem_append.mp hcmem with h1 | h1
      · have := processReverts_pre known tx crus ⟨0, 0⟩ TxOp.commit h1
        simp [isPreOp] at this
      · have := applyChainUpdates_pre known maxAge now tx caus TxOp.commit h1
        simp [isPreOp] at this

theorem retryGo_eq_ok (f : Nat → Except String ChainIndex) (i : Nat)
    (remaining : List Nat) (idx : ChainIndex) (h : f i = Except.ok idx) :
    retryGo f i remaining = ⟨i, [], Except.ok idx⟩ := by
  conv_lhs => rw [retryGo]
  rw [h]

theorem retryGo_eq_err_nil (f : Nat → Except String ChainIndex) (i : Nat)
    (e : String) (h : f i = Except.error e) :
    retryGo f i [] = ⟨i, [], Except.error e⟩ := by
  conv_lhs => rw [retryGo]
  rw [h]

theorem retryGo_eq_err_cons (f : Nat → Except String ChainIndex) (i : Nat)
    (e : String) (d : Nat) (rest : List Nat) (h : f i = Except.error e) :
    retryGo f i (d :: rest) =
      ⟨(retryGo f (i + 1) rest).attemptsMade,
       d :: (retryGo f (i + 1) rest).sleeps,
       (retryGo f (i + 1) rest).outcome⟩ := by
  conv_lhs => rw [retryGo]
  rw [h]

theorem retryGo_ge (f : Nat → Except String ChainIndex) (remaining : List Nat) :
    ∀ i, i ≤ (retryGo f i remaining).attemptsMade := by
  induction remaining with
  | nil =>
    intro i
    rcases hf : f i with e | idx
    · rw [retryGo_eq_err_nil f i e hf]
    · rw [retryGo_eq_ok f i [] idx hf]
  | cons d rest ih =>
    intro i
    rcases hf : f i with e | idx
    · rw [retryGo_eq_err_cons f i e d rest hf]
      dsimp only
      have := ih (i + 1)
      omega
    · rw [retryGo_eq_ok f i (d :: rest) idx hf]

theorem retryGo_le (f : Nat → Except String ChainIndex) (remaining : List Nat) :
    ∀ i, (retryGo f i remaining).attemptsMade ≤ i + remaining.length := by
  induction remaining with
  | nil =>
    intro i
    rcases hf : f i with e | idx
    · rw [retryGo_eq_err_nil f i e hf]; simp
    · rw [retryGo_eq_ok f i [] idx hf]; simp
  | cons d rest ih =>
    intro i
    rcases hf : f i with e | idx
    · rw [retryGo_eq_err_cons f i e d rest hf]
      dsimp only
      have := ih (i + 1)
      simp only [List.length_cons]
      omega
    · rw [retryGo_eq_ok f i (d :: rest) idx hf]
      simp

theorem retryGo_sleeps (f : Nat → Except String ChainIndex) (remaining : List Nat) :
    ∀ i, (retryGo f i remaining).sleeps =
      remaining.take ((retryGo f i remaining).attemptsMade - i) := by
  induction remaining with
  | nil =>
    intro i
    rcases hf : f i with e | idx
    · rw [retryGo_eq_err_nil f i e hf]; simp
    · rw [retryGo_eq_ok f i [] idx hf]; simp
  | cons d rest ih =>
    intro i
    rcases hf : f i with e | idx
    · rw [retryGo_eq_err_cons f i e d rest hf]
      dsimp only
      have hge := retryGo_ge f rest (i + 1)
      have harith : (retryGo f (i + 1) rest).attemptsMade - i =
          ((retryGo f (i + 1) rest).attemptsMade - (i + 1)) + 1 := by omega
      simp only [harith, List.take_succ_cons]
      rw [ih (i + 1)]
    · rw [retryGo_eq_ok f i (d :: rest) idx hf]
      simp

theorem retryGo_ok (f : Nat → Except String ChainIndex) (remaining : List Nat) :
    ∀ i idx, (retryGo f i remaining).outcome = Except.ok idx →
      f (retryGo f i remaining).attemptsMade = Except.ok idx ∧
      ∀ j, i ≤ j → j < (retryGo f i remaining).attemptsMade →
        ∃ e, f j = Except.error e := by
  induction remaining with
  | nil =>
    intro i idx h
    rcases hf : f i with e | idx2
    · rw [retryGo_eq_err_nil f i e hf] at h
      simp at h
    · rw [retryGo_eq_ok f i [] idx2 hf] at h ⊢
      simp at h
      subst h
      exact ⟨hf, fun j h1 h2 => absurd h2 (by simp; omega)⟩
  | cons d rest ih =>
    intro i idx h
    rcases hf : f i with e | idx2
    · rw [retryGo_eq_err_cons f i e d rest hf] at h ⊢
      dsimp only at h ⊢
      rcases ih (i + 1) idx h with ⟨h1, h2⟩
      refine ⟨h1, ?_⟩
      intro j hj1 hj2
      rcases Nat.eq_or_lt_of_le hj1 with h3 | h3
      · exact ⟨e, h3 ▸ hf⟩
      · exact h2 j h3 hj2
    · rw [retryGo_eq_ok f i (d :: rest) idx2 hf] at h ⊢
      simp at h
      subst h
      exact ⟨hf, fun j h1 h2 => absurd h2 (by simp; omega)⟩

theorem retryGo_err (f : Nat → Except String ChainIndex) (remaining : List Nat) :
    ∀ i e, (retryGo f i remaining).outcome = Except.error e →
      (retryGo f i remaining).attemptsMade = i + remaining.length ∧
      f (i + remaining.length) = Except.error e := by
  induction remaining with
  | nil =>
    intro i e h
    rcases hf : f i with e2 | idx
    · rw [retryGo_eq_err_nil f i e2 hf] at h ⊢
      simp at h
      subst h
      exact ⟨by simp, by simpa using hf⟩
    · rw [retryGo_eq_ok f i [] idx hf] at h
      simp at h
  | cons d rest ih =>
    intro i e h
    rcases hf : f i with e2 | idx
    · rw [retryGo_eq_err_cons f i e2 d rest hf] at h ⊢
      dsimp only at h ⊢
      rcases ih (i + 1) e h with ⟨h1, h2⟩
      constructor
      · simp only [List.length_cons]
        omega
      · have harith : i + (rest.length + 1) = (i + 1) + rest.length := by omega
        simp only [List.length_cons, harith]
        exact h2
    · rw [retryGo_eq_ok f i (d :: rest) idx hf] at h
      simp at h

theorem isUCIop_of_pre {op : TxOp} (h : isPreOp op = true) : isUCIop op = false := by
  cases op
  case updateChainIndex i => exact absurd h (by simp [isPreOp])
  all_goals rfl

/-- C1: the specification says an old block timestamp only skips host
processing and that the contract deriver still runs on the block's
file-contract elements.  The code's `continue` skips the whole loop
iteration instead: for an apply update whose block is older than
`announcementMaxAge` (here `now - timestamp = 1000 > maxAge = 10`) carrying
a v1 element of the known contract 42, no transaction call at all is made —
in particular no `ContractState` read and no `UpdateContract` write for
contract 42, which processing the element would have produced. -/
theorem C1_old_block_skips_contract_processing :
    applyChainUpdates [42] 10 1000 txAllOk [oldBlockUpdate] = ([], none) := rfl

/-- C5: `checkFileContract` classifies a missing resolution as
`(false, false)`, the `Finalization`, `Renewal` and `StorageProof` variants
as `(true, true)`, and `Expiration` as `(true, file_size == 0)`. -/
theorem C5_checkFileContract_classification (fce : Revision) :
    checkFileContract fce none = (false, false) ∧
    checkFileContract fce (some V2Resolution.finalization) = (true, true) ∧
    checkFileContract fce (some V2Resolution.renewal) = (true, true) ∧
    checkFileContract fce (some V2Resolution.storageProof) = (true, true) ∧
    checkFileContract fce (some V2Resolution.expiration) = (true, fce.fileSize == 0) :=
  ⟨rfl, rfl, rfl, rfl, rfl⟩

/-- C10: with both `prev` and `curr` nil, `updateContract` fails with the
developer error before consulting the known-contract filter: for every
contract ID, known or not, it performs no transaction call and returns the
error. -/
theorem C10_both_nil_error (known : List Nat) (tx : Tx) (index : ChainIndex)
    (fcid : Nat) (resolved valid : Bool) :
    updateContract known tx index fcid none none resolved valid =
      ([], some "both prev and curr revisions are nil") := rfl

/-- C7: for a contract ID absent from the known-contracts set, with at least
one of `prev` and `curr` non-nil, `updateContract` performs no transaction
call naming the ID (the trace is empty, so there is no `ContractState` read
and no `UpdateContract`, `UpdateContractState` or `UpdateContractProofHeight`
write) and returns nil. -/
theorem C7_unknown_contract_no_writes (known : List Nat) (tx : Tx)
    (index : ChainIndex) (fcid : Nat) (prev curr : Option Revision)
    (resolved valid : Bool) (hunknown : fcid ∉ known)
    (hsome : prev.isSome ∨ curr.isSome) :
    updateContract known tx index fcid prev curr resolved valid = ([], none) := by
  rcases prev with _ | p <;> rcases curr with _ | c
  · simp at hsome
  · simp [updateContract, hunknown]
  · simp [updateContract, hunknown]
  · simp [updateContract, hunknown]

theorem C7_witness :
    updateContract [7] txAllOk ⟨1, 1⟩ 9 none (some ⟨2, 3⟩) true true = ([], none) :=
  C7_unknown_contract_no_writes [7] txAllOk ⟨1, 1⟩ 9 none (some ⟨2, 3⟩) true true
    (by decide) (Or.inr rfl)

/-- C9: on empty revert and apply batches with every transaction call
succeeding, `processUpdates` calls `UpdateChainIndex` with the zero-valued
chain index and `UpdateFailedContracts` with height 0, then commits, and
returns the zero index. -/
theorem C9_empty_batches_zero_index (known : List Nat) (maxAge now : Int)
    (tx : Tx) (hok : ∀ op, tx.opOk op = true) :
    processUpdates known maxAge now tx [] [] =
      ([TxOp.walletApply, TxOp.updateChainIndex ⟨0, 0⟩,
        TxOp.updateFailedContracts 0, TxOp.commit], Except.ok ⟨0, 0⟩) := by
  simp [processUpdates, processReverts, applyChainUpdates, runSeq, batchIndex, hok]

theorem C9_witness :
    processUpdates [] 10 0 txAllOk [] [] =
      ([TxOp.walletApply, TxOp.updateChainIndex ⟨0, 0⟩,
        TxOp.updateFailedContracts 0, TxOp.commit], Except.ok ⟨0, 0⟩) :=
  C9_empty_batches_zero_index [] 10 0 txAllOk (fun _ => rfl)

/-- C6: for one batch, the retry loop of `sync` makes at most
`len(retryTxIntervals) + 1` attempts of `processUpdates`; the sleeps
performed are exactly the first `attempts - 1` intervals in order (so the
sleep before retry `i + 1` is `retryTxIntervals[i - 1]`); when the outcome
is a success, the final attempt succeeded and every earlier attempt failed
(so a success on attempt `k` means exactly `k` attempts); and when the
outcome is an error, all `len + 1` attempts were made and the error of the
final attempt is returned from `sync`. -/
theorem C6_retry_loop (intervals : List Nat) (f : Nat → Except String ChainIndex) :
    (syncRetry intervals f).attemptsMade ≤ intervals.length + 1 ∧
    (syncRetry intervals f).sleeps =
      intervals.take ((syncRetry intervals f).attemptsMade - 1) ∧
    (∀ idx, (syncRetry intervals f).outcome = Except.ok idx →
      f (syncRetry intervals f).attemptsMade = Except.ok idx ∧
      ∀ j, 1 ≤ j → j < (syncRetry intervals f).attemptsMade →
        ∃ e, f j = Except.error e) ∧
    (∀ e, (syncRetry intervals f).outcome = Except.error e →
      (syncRetry intervals f).attemptsMade = intervals.length + 1 ∧
      f (intervals.length + 1) = Except.error e) := by
  refine ⟨?_, ?_, ?_, ?_⟩
  · have := retryGo_le f intervals 1
    unfold syncRetry
    omega
  · exact retryGo_sleeps f intervals 1
  · intro idx h
    exact retryGo_ok f intervals 1 idx h
  · intro e h
    have hi := retryGo_err f intervals 1 e h
    constructor
    · have h1 := hi.1
      unfold syncRetry
      omega
    · have h2 := hi.2
      rwa [Nat.add_comm] at h2

theorem C6_witness : (syncRetry [5, 7] attemptsOkAt2).attemptsMade ≤ 3 :=
  (C6_retry_loop [5, 7] attemptsOkAt2).1

/-- A revert update with no contract elements, used as a concrete witness
input. -/
def cruW : RevertUpdate := ⟨⟨5, 7⟩, [], []⟩

/-- C2: when `processUpdates` succeeds, `UpdateChainIndex` is called exactly
once in the whole transaction, its argument is the returned index, and that
index is the index of the last apply update when the apply batch is
non-empty, else the index of the last revert update. -/
theorem C2_updateChainIndex_once (known : List Nat) (maxAge now : Int) (tx : Tx)
    (crus : List RevertUpdate) (caus : List ApplyUpdate) (idx : ChainIndex)
    (h : (processUpdates known maxAge now tx crus caus).2 = Except.ok idx) :
    List.filter isUCIop (processUpdates known maxAge now tx crus caus).1 =
      [TxOp.updateChainIndex idx] ∧
    (∀ c, caus.getLast? = some c → idx = c.index) ∧
    (caus = [] → ∀ r, crus.getLast? = some r → idx = r.index) := by
  rcases processUpdates_ok_shape known maxAge now tx crus caus idx h with
    ⟨idx0, hr, ha, hidx, hw, hu, hf, hc, htr⟩
  refine ⟨?_, ?_, ?_⟩
  · rw [htr, List.filter_append, List.filter_append]
    have h1 : List.filter isUCIop (processReverts known tx ⟨0, 0⟩ crus).1 = [] := by
      rw [List.filter_eq_nil_iff]
      intro op hop
      have := isUCIop_of_pre (processReverts_pre known tx crus ⟨0, 0⟩ op hop)
      simp [this]
    have h2 : List.filter isUCIop (applyChainUpdates known maxAge now tx caus).1 = [] := by
      rw [List.filter_eq_nil_iff]
      intro op hop
      have := isUCIop_of_pre (applyChainUpdates_pre known maxAge now tx caus op hop)
      simp [this]
    rw [h1, h2]
    rfl
  · intro c hcl
    rw [hidx]
    unfold batchIndex
    rw [hcl]
  · intro hce r hrl
    subst hce
    have hidx0 : idx = idx0 := by
      rw [hidx]; rfl
    rcases processReverts_index known tx crus ⟨0, 0⟩ idx0 hr with ⟨hnil, _⟩ | ⟨r2, hl, hji⟩
    · subst hnil
      simp at hrl
    · rw [hl] at hrl
      injection hrl with hr2
      rw [hidx0, hji, hr2]

theorem C2_witness :
    List.filter isUCIop (processUpdates [] 10 0 txAllOk [cruW] []).1 =
      [TxOp.updateChainIndex ⟨5, 7⟩] :=
  (C2_updateChainIndex_once [] 10 0 txAllOk [cruW] [] ⟨5, 7⟩ rfl).1

/-- C8: if a transaction operation other than `Commit` fails during
`processUpdates` (it appears in the trace with a failing oracle), then
`Commit` is never invoked on the transaction and `processUpdates` returns an
error, leaving the batch unpublished and eligible for retry. -/
theorem C8_error_aborts_without_commit (known : List Nat) (maxAge now : Int)
    (tx : Tx) (crus : List RevertUpdate) (caus : List ApplyUpdate)
    (h : ∃ op ∈ (processUpdates known maxAge now tx crus caus).1,
      op ≠ TxOp.commit ∧ tx.opOk op = false) :
    TxOp.commit ∉ (processUpdates known maxAge now tx crus caus).1 ∧
    ∃ e, (processUpdates known maxAge now tx crus caus).2 = Except.error e := by
  rcases h with ⟨op0, hmem, hne, hfail⟩
  constructor
  · intro hcmem
    have := processUpdates_commit_mem known maxAge now tx crus caus hcmem op0 hmem hne
    rw [this] at hfail
    simp at hfail
  · rcases hres : (processUpdates known maxAge now tx crus caus).2 with m | idx
    · exact ⟨m, rfl⟩
    · exfalso
      have := processUpdates_ok_allOk known maxAge now tx crus caus idx hres op0 hmem
      rw [this] at hfail
      simp at hfail

theorem C8_witness :
    TxOp.commit ∉ (processUpdates [] 10 0 txFailWalletApply [] []).1 :=
  (C8_error_aborts_without_commit [] 10 0 txFailWalletApply [] []
    ⟨TxOp.walletApply, by decide, by decide, by decide⟩).1

/-- C3: on the apply path of the deriver for a known contract with
`resolved = true` and every call succeeding, the trace is the state read,
the `UpdateContract` write, the conditional Pending/Unknown-to-Active write,
the conditional renewal-marker Complete write, then
`UpdateContractProofHeight` at the update's height followed by the state
write of `Complete` when `valid` and `Failed` when not; that final write is
the last `UpdateContractState` of the call, so it supersedes the earlier
state writes. -/
theorem C3_resolved_apply_writes (known : List Nat) (tx : Tx) (index : ChainIndex)
    (fcid : Nat) (c : Revision) (valid : Bool)
    (hknown : fcid ∈ known) (hok : ∀ op, tx.opOk op = true) :
    updateContract known tx index fcid none (some c) true valid =
      (TxOp.contractState fcid ::
        TxOp.updateContract fcid index.height c.revisionNumber c.fileSize ::
        ((if tx.stateOf fcid = ContractState.pending ∨ tx.stateOf fcid = ContractState.unknown
          then [TxOp.updateContractState fcid ContractState.active] else []) ++
         (if c.revisionNumber = maxRevisionNumber ∧ c.fileSize = 0
          then [TxOp.updateContractState fcid ContractState.complete] else []) ++
         [TxOp.updateContractProofHeight fcid index.height,
          TxOp.updateContractState fcid
            (if valid then ContractState.complete else ContractState.failed)]),
       none) ∧
    List.getLast? (List.filter isStateWriteOp
        (updateContract known tx index fcid none (some c) true valid).1) =
      some (TxOp.updateContractState fcid
        (if valid then ContractState.complete else ContractState.failed)) := by
  have hsq := seqOps_allOk tx (applyOps fcid index (tx.stateOf fcid) c true valid)
    (fun op _ => hok op)
  have hmain : updateContract known tx index fcid none (some c) true valid =
      (TxOp.contractState fcid :: applyOps fcid index (tx.stateOf fcid) c true valid,
       none) := by
    simp [updateContract, hknown, hok, hsq]
  constructor
  · rw [hmain]
    unfold applyOps
    simp
  · rw [hmain]
    by_cases h1 : tx.stateOf fcid = ContractState.pending ∨ tx.stateOf fcid = ContractState.unknown <;>
      by_cases h2 : c.revisionNumber = maxRevisionNumber ∧ c.fileSize = 0 <;>
      simp [applyOps, h1, h2, isStateWriteOp]

theorem C3_witness :
    List.getLast? (List.filter isStateWriteOp
        (updateContract [7] txAllOk ⟨4, 4⟩ 7 none (some ⟨5, 100⟩) true true).1) =
      some (TxOp.updateContractState 7 ContractState.complete) := by
  have h := (C3_resolved_apply_writes [7] txAllOk ⟨4, 4⟩ 7 ⟨5, 100⟩ true
    (by decide) (fun _ => rfl)).2
  simpa using h

/-- C4: on the revert path of the deriver for a known contract with every
call succeeding, the trace is the state read, then the Pending write when
`curr` is nil, then — when `curr` is non-nil — the
`UpdateContract(height, prev.revisionNumber, prev.fileSize)` write followed
by an Active write exactly when the prior state was Complete, then an Active
write when `resolved` is true; `valid` does not influence the writes, and
when `resolved` the Active write is the last call of the trace. -/
theorem C4_revert_writes (known : List Nat) (tx : Tx) (index : ChainIndex)
    (fcid : Nat) (p : Revision) (curr : Option Revision) (resolved valid : Bool)
    (hknown : fcid ∈ known) (hok : ∀ op, tx.opOk op = true) :
    updateContract known tx index fcid (some p) curr resolved valid =
      (TxOp.contractState fcid ::
        ((if curr.isNone then [TxOp.updateContractState fcid ContractState.pending] else []) ++
         (match curr with
          | some _ =>
            TxOp.updateContract fcid index.height p.revisionNumber p.fileSize ::
              (if tx.stateOf fcid = ContractState.complete
               then [TxOp.updateContractState fcid ContractState.active] else [])
          | none => []) ++
         (if resolved then [TxOp.updateContractState fcid ContractState.active] else [])),
       none) ∧
    (resolved = true →
      List.getLast? (updateContract known tx index fcid (some p) curr resolved valid).1 =
        some (TxOp.updateContractState fcid ContractState.active)) := by
  have hsq := seqOps_allOk tx (revertOps fcid index (tx.stateOf fcid) p curr resolved)
    (fun op _ => hok op)
  have hmain : updateContract known tx index fcid (some p) curr resolved valid =
      (TxOp.contractState fcid :: revertOps fcid index (tx.stateOf fcid) p curr resolved,
       none) := by
    rcases curr with _ | c <;> simp [updateContract, hknown, hok, hsq]
  constructor
  · rw [hmain]
    rfl
  · intro hres
    subst hres
    rw [hmain]
    unfold revertOps
    rcases curr with _ | c <;>
      by_cases hst : tx.stateOf fcid = ContractState.complete <;>
      simp [hst]

theorem C4_witness :
    List.getLast? (updateContract [3] txAllOk ⟨8, 8⟩ 3 (some ⟨6, 50⟩)
        (some ⟨2, 10⟩) true false).1 =
      some (TxOp.updateContractState 3 ContractState.active) :=
  (C4_revert_writes [3] txAllOk ⟨8, 8⟩ 3 ⟨6, 50⟩ (some ⟨2, 10⟩) true false
    (by decide) (fun _ => rfl)).2 rfl

end RenterdChain
